import Mathlib

/-!
Verification of the console-to-structured-logger rewriting scripts
`refactor-logger.py` and `refactor_logs.py`.

Text is modelled as `List Char`.  Each regular-expression substitution pass
of the scripts is embedded as a deterministic left-to-right scanner: for the
concrete patterns used by the scripts every quantifier is bounded by a
character class disjoint from what follows it, so Python's backtracking
`re.sub` semantics coincides with the greedy single-pass parse implemented
here.  Character classes (`\s`, `\w`) are modelled over ASCII.
-/

set_option maxRecDepth 10000

/-- Character list of a string literal. -/
def str (s : String) : List Char := s.data

/-- Python `\s` and `str.strip()` whitespace over ASCII. -/
def isWS (c : Char) : Bool :=
  c = ' ' || c = '\t' || c = '\n' || c = '\r' || c = '\x0b' || c = '\x0c'

/-- The quote class `['"%60]` used by the patterns (single, double, backtick). -/
def isQuote (c : Char) : Bool :=
  c = '\'' || c = '"' || c = '`'

/-- Python `\w` over ASCII: letters, digits, underscore. -/
def isWord (c : Char) : Bool :=
  c.isAlpha || c.isDigit || c = '_'

/-- The class `[A-Z_]` of the `ICONS` patterns in refactor_logs.py. -/
def isIconChar (c : Char) : Bool :=
  ('A' ≤ c && c ≤ 'Z') || c = '_'

/-- Python `str.strip()`: drop whitespace from both ends. -/
def pyStrip (l : List Char) : List Char :=
  ((l.dropWhile isWS).reverse.dropWhile isWS).reverse

/-- Python's substring test `pat in s`. -/
def substrB (pat : List Char) : List Char → Bool
  | [] => pat.isEmpty
  | c :: cs => pat.isPrefixOf (c :: cs) || substrB pat cs

/-- Consume a literal from the front of the text, returning the rest. -/
def dropLit : List Char → List Char → Option (List Char)
  | [], cs => some cs
  | _ :: _, [] => none
  | l :: ls, c :: cs => if c = l then dropLit ls cs else none

/-- One `re.sub` scan: at each position try the matcher; on a match emit its
replacement and continue after the consumed text, otherwise keep the
character.  Every matcher consumes at least one character, so fuel equal to
the input length runs the scan to completion. -/
def subNF (m : List Char → Option (List Char × List Char)) :
    Nat → List Char → List Char × Nat
  | 0, cs => (cs, 0)
  | _ + 1, [] => ([], 0)
  | n + 1, c :: cs =>
    match m (c :: cs) with
    | some (rep, rest) =>
      let p := subNF m n rest
      (rep ++ p.1, p.2 + 1)
    | none =>
      let p := subNF m n cs
      (c :: p.1, p.2)

/-- `re.sub(r'\$\x7b[^\x7d]+\x7d', '', msg)`: remove every (leftmost,
nonempty, brace-closed) interpolation marker, scanning left to right. -/
def stripInterpF : Nat → List Char → List Char
  | 0, cs => cs
  | _ + 1, [] => []
  | n + 1, c :: cs =>
    if c = '$' then
      match cs with
      | '\x7b' :: cs2 =>
        let body := cs2.takeWhile (fun d => !(d = '\x7d'))
        match cs2.dropWhile (fun d => !(d = '\x7d')) with
        | '\x7d' :: rest =>
          if body.isEmpty then c :: stripInterpF n cs else stripInterpF n rest
        | _ => c :: stripInterpF n cs
      | _ => c :: stripInterpF n cs
    else c :: stripInterpF n cs

def stripInterp (l : List Char) : List Char := stripInterpF l.length l

/-- Python `content.split('\n')`. -/
def splitLines : List Char → List (List Char)
  | [] => [[]]
  | c :: cs =>
    if c = '\n' then [] :: splitLines cs
    else
      match splitLines cs with
      | l :: ls => (c :: l) :: ls
      | [] => [[c]]

/-- Python `'\n'.join(lines)`. -/
def joinLines : List (List Char) → List Char
  | [] => []
  | [l] => l
  | l :: ls => l ++ '\n' :: joinLines ls

/-- Python `lines.insert(i, x)` (for `i ≤ length`, which is how it is used). -/
def insertAt (i : Nat) (x : List Char) (ls : List (List Char)) :
    List (List Char) :=
  ls.take i ++ x :: ls.drop i

/-- The substring `'${'` (interpolation-marker test of the scripts). -/
def interpMark : List Char := str "$\x7b"

/-- The inserted logger import line (single-quoted form, as emitted). -/
def importLine : List Char :=
  str "import \x7b log, logError \x7d from '@/lib/services/logger';"

/-- The double-quoted form of the same import line. -/
def importLineD : List Char :=
  str "import \x7b log, logError \x7d from \"@/lib/services/logger\";"

/-- Matcher for `console\.error\(\s*['"%60]([^'"%60]+)['"%60]\s*,\s*(\w+)\s*\)`
(and the identical console.warn pattern), parameterized by the literal call
head.  Returns the replacement text and the rest of the input. -/
def matchStrVar (lit : List Char) (cs : List Char) :
    Option (List Char × List Char) :=
  match dropLit lit cs with
  | none => none
  | some r1 =>
    match r1.dropWhile isWS with
    | [] => none
    | q :: r3 =>
      if isQuote q then
        let msg := r3.takeWhile (fun c => !isQuote c)
        match r3.dropWhile (fun c => !isQuote c) with
        | [] => none
        | q2 :: r5 =>
          if msg.isEmpty then none
          else if isQuote q2 then
            match r5.dropWhile isWS with
            | ',' :: r7 =>
              let r8 := r7.dropWhile isWS
              let v := r8.takeWhile isWord
              if v.isEmpty then none
              else
                match (r8.dropWhile isWord).dropWhile isWS with
                | ')' :: r10 =>
                  some (str "logError(" ++ v ++ str ", \"" ++
                    pyStrip (msg.filter (fun c => !(c = '[' || c = ']'))) ++
                    str "\", \x7b component: \"refactored\" \x7d)", r10)
                | _ => none
            | _ => none
          else none
      else none

/-- Matcher for the template-literal patterns
`console\.X\(\s*%60([^%60]+)%60\s*\)`, parameterized by the call head literal
and the emitted head (`log.error` / `log.warn` / `log.info`). -/
def matchTemplate (lit head : List Char) (cs : List Char) :
    Option (List Char × List Char) :=
  match dropLit lit cs with
  | none => none
  | some r1 =>
    match r1.dropWhile isWS with
    | '`' :: r3 =>
      let msg := r3.takeWhile (fun c => !(c = '`'))
      match r3.dropWhile (fun c => !(c = '`')) with
      | '`' :: r5 =>
        if msg.isEmpty then none
        else
          match r5.dropWhile isWS with
          | ')' :: r7 =>
            if substrB interpMark msg then
              some (head ++ str "(\x7b msg: \"" ++ pyStrip (stripInterp msg) ++
                str "\" \x7d)", r7)
            else
              some (head ++ str "(\x7b msg: \"" ++ msg ++ str "\" \x7d)", r7)
          | _ => none
      | _ => none
    | _ => none

/-- Matcher for the simple patterns `console\.X\(\s*['"%60]([^'"%60]+)['"%60]\s*\)`
whose replacement template is `HEAD({ msg: "\1" })`. -/
def matchSimple (lit head : List Char) (cs : List Char) :
    Option (List Char × List Char) :=
  match dropLit lit cs with
  | none => none
  | some r1 =>
    match r1.dropWhile isWS with
    | [] => none
    | q :: r3 =>
      if isQuote q then
        let msg := r3.takeWhile (fun c => !isQuote c)
        match r3.dropWhile (fun c => !isQuote c) with
        | [] => none
        | q2 :: r5 =>
          if msg.isEmpty then none
          else if isQuote q2 then
            match r5.dropWhile isWS with
            | ')' :: r7 =>
              some (head ++ str "(\x7b msg: \"" ++ msg ++ str "\" \x7d)", r7)
            | _ => none
          else none
      else none

namespace RefactorLogger

/-- `console\.(log|warn|error)`: length of a match at the front of the text,
trying the alternatives in the pattern's order. -/
def consMatchLen (cs : List Char) : Option Nat :=
  match dropLit (str "console.log") cs with
  | some _ => some 11
  | none =>
    match dropLit (str "console.warn") cs with
    | some _ => some 12
    | none =>
      match dropLit (str "console.error") cs with
      | some _ => some 13
      | none => none

/-- Fueled scan counting the non-overlapping matches of
`console\.(log|warn|error)` (`len(re.findall(...))` in `refactor_file`). -/
def countConsoleF : Nat → List Char → Nat
  | 0, _ => 0
  | _ + 1, [] => 0
  | n + 1, c :: cs =>
    match consMatchLen (c :: cs) with
    | some L => countConsoleF n (List.drop (L - 1) cs) + 1
    | none => countConsoleF n cs

def countConsole (t : List Char) : Nat := countConsoleF t.length t

/-- `has_logger_import`: either quoting of the import path is present. -/
def has_logger_import (content : List Char) : Bool :=
  substrB (str "from '@/lib/services/logger'") content ||
  substrB (str "from \"@/lib/services/logger\"") content

/-- A stripped line matches `^import\s+.*?;?\s*$` iff it starts with
`import` followed by a whitespace character (the lazy tail matches any
remainder). -/
def isImportLine (l : List Char) : Bool :=
  match dropLit (str "import") (pyStrip l) with
  | some (c :: _) => isWS c
  | _ => false

/-- The enumerate loop of `add_logger_import` keeping the last matching
index (`-1` sentinel becomes `none`). -/
def lastIdxWhereAux (p : List Char → Bool) :
    Nat → Option Nat → List (List Char) → Option Nat
  | _, acc, [] => acc
  | i, acc, l :: ls => lastIdxWhereAux p (i + 1) (if p l then some i else acc) ls

def lastImportIdx (ls : List (List Char)) : Option Nat :=
  lastIdxWhereAux isImportLine 0 none ls

/-- `add_logger_import`. -/
def add_logger_import (content : List Char) : List Char :=
  if has_logger_import content then content
  else
    match lastImportIdx (splitLines content) with
    | some i => joinLines (insertAt (i + 1) importLine (splitLines content))
    | none => importLine ++ '\n' :: '\n' :: content

/-- `refactor_console_error`: pattern 1 (string + error variable), pattern 2
(template literal), pattern 3 (simple), in the source's order. -/
def refactor_console_error (content : List Char) : List Char :=
  let c1 := (subNF (matchStrVar (str "console.error(")) content.length content).1
  let c2 := (subNF (matchTemplate (str "console.error(") (str "log.error"))
    c1.length c1).1
  (subNF (matchSimple (str "console.error(") (str "log.error")) c2.length c2).1

/-- `refactor_console_warn`: template, then string + error variable, then
simple. -/
def refactor_console_warn (content : List Char) : List Char :=
  let c1 := (subNF (matchTemplate (str "console.warn(") (str "log.warn"))
    content.length content).1
  let c2 := (subNF (matchStrVar (str "console.warn(")) c1.length c1).1
  (subNF (matchSimple (str "console.warn(") (str "log.warn")) c2.length c2).1

/-- `refactor_console_log`: template, then simple. -/
def refactor_console_log (content : List Char) : List Char :=
  let c1 := (subNF (matchTemplate (str "console.log(") (str "log.info"))
    content.length content).1
  (subNF (matchSimple (str "console.log(") (str "log.info")) c1.length c1).1

/-- The three rewrite passes of `refactor_file`, in order. -/
def passes (content : List Char) : List Char :=
  refactor_console_log (refactor_console_warn (refactor_console_error content))

/-- Pure content of `refactor_file`: `some c` means the file is overwritten
with `c`; `none` means it is left untouched.  The count is
`count_before - count_after` (a Python int, hence `Int`). -/
def refactor_file (content : List Char) : Option (List Char) × Int :=
  let cb := countConsole content
  if cb = 0 then (none, 0)
  else
    let c := passes (add_logger_import content)
    if c = content then (none, 0)
    else (some c, (cb : Int) - (countConsole c : Int))

/-- The on-disk text after one run of the tool on `content`. -/
def rewritten (content : List Char) : List Char :=
  ((refactor_file content).1).getD content

/-- Assoc-list file system. -/
def fsRead : List (String × List Char) → String → Option (List Char)
  | [], _ => none
  | (q, c) :: fs, p => if q = p then some c else fsRead fs p

def fsWrite : List (String × List Char) → String → List Char →
    List (String × List Char)
  | [], _, _ => []
  | (q, c) :: fs, p, c' =>
    if q = p then (q, c') :: fs else (q, c) :: fsWrite fs p c'

/-- The per-file loop of `main`: missing files are skipped, processed files
are overwritten when `refactor_file` writes. -/
def processAll (fs : List (String × List Char)) :
    List String → List (String × List Char)
  | [] => fs
  | a :: rest =>
    match fsRead fs a with
    | none => processAll fs rest
    | some c =>
      match refactor_file c with
      | (some c', _) => processAll (fsWrite fs a c') rest
      | (none, _) => processAll fs rest

/-- `main`: exit status and resulting file system. -/
def main (args : List String) (fs : List (String × List Char)) :
    Nat × List (String × List Char) :=
  match args with
  | [] => (1, fs)
  | _ :: _ => (0, processAll fs args)

end RefactorLogger

namespace RefactorLogs

/-- Replacement of `refactor_logs.py` pattern 1 (`console.log` with
`${ICONS.X}` prefix): msg is stripped, data appended when nonempty. -/
def mkIconsLog (msg data : List Char) : List Char :=
  str "log.info(\x7b msg: '" ++ msg ++ str "', component: 'todo'" ++
  (if data.isEmpty then [] else str ", " ++ data) ++ str " \x7d);"

/-- Replacement of pattern 2 (`console.warn` with `${ICONS.X}` prefix). -/
def mkIconsWarn (msg data : List Char) : List Char :=
  str "log.warn(\x7b msg: '" ++ msg ++ str "', component: 'todo'" ++
  (if data.isEmpty then [] else str ", " ++ data) ++ str " \x7d);"

/-- Replacement of pattern 3 (`console.error` with `${ICONS.X}` prefix):
an empty data argument falls back to `new Error("msg")`. -/
def mkIconsErr (msg data : List Char) : List Char :=
  str "logError(" ++
  (if data.isEmpty then str "new Error(\"" ++ msg ++ str "\")" else data) ++
  str ", '" ++ msg ++ str "', \x7b component: 'todo' \x7d);"

/-- Matcher for the ICONS patterns
`console\.X\(%60\$\x7bICONS\.[A-Z_]+\x7d\s*([^%60]*)%60(?:,\s*([^)]*))?\);`,
parameterized by the literal head (up to and including `ICONS.`) and the
replacement builder (which receives the stripped message and raw data). -/
def matchIcons (lit : List Char) (mk : List Char → List Char → List Char)
    (cs : List Char) : Option (List Char × List Char) :=
  match dropLit lit cs with
  | none => none
  | some r1 =>
    let x := r1.takeWhile isIconChar
    if x.isEmpty then none
    else
      match r1.dropWhile isIconChar with
      | '\x7d' :: r3 =>
        let r4 := r3.dropWhile isWS
        let msg := r4.takeWhile (fun c => !(c = '`'))
        match r4.dropWhile (fun c => !(c = '`')) with
        | '`' :: r6 =>
          match r6 with
          | ',' :: r7 =>
            let r8 := r7.dropWhile isWS
            let data := r8.takeWhile (fun c => !(c = ')'))
            match r8.dropWhile (fun c => !(c = ')')) with
            | ')' :: ';' :: r10 => some (mk (pyStrip msg) data, r10)
            | _ => none
          | ')' :: ';' :: r7 => some (mk (pyStrip msg) [], r7)
          | _ => none
        | _ => none
      | _ => none

/-- Matcher for patterns 4 and 5, `console\.X\('([^']*)',\s*([^)]*)\);`,
parameterized by the literal head (including `('`) and the replacement
builder (raw message, raw data). -/
def matchPlain (lit : List Char) (mk : List Char → List Char → List Char)
    (cs : List Char) : Option (List Char × List Char) :=
  match dropLit lit cs with
  | none => none
  | some r1 =>
    let msg := r1.takeWhile (fun c => !(c = '\''))
    match r1.dropWhile (fun c => !(c = '\'')) with
    | '\'' :: ',' :: r4 =>
      let r5 := r4.dropWhile isWS
      let data := r5.takeWhile (fun c => !(c = ')'))
      match r5.dropWhile (fun c => !(c = ')')) with
      | ')' :: ';' :: r7 => some (mk msg data, r7)
      | _ => none
    | _ => none

/-- Replacement of pattern 4 (simple `console.log`). -/
def mkPlainLog (msg data : List Char) : List Char :=
  str "log.info(\x7b msg: '" ++ msg ++ str "', " ++ data ++ str " \x7d);"

/-- Replacement of pattern 5 (simple `console.error`). -/
def mkPlainErr (msg data : List Char) : List Char :=
  str "logError(" ++ data ++ str ", '" ++ msg ++
  str "', \x7b component: 'todo' \x7d);"

/-- `re.search(r"(import [^;]+;)", content)` tried at one position: the
length of a match starting here. -/
def importStmtLen (cs : List Char) : Option Nat :=
  match dropLit (str "import ") cs with
  | none => none
  | some r =>
    let body := r.takeWhile (fun c => !(c = ';'))
    if body.isEmpty then none
    else
      match r.dropWhile (fun c => !(c = ';')) with
      | ';' :: _ => some (7 + body.length + 1)
      | _ => none

/-- Leftmost match of the import-statement pattern: start position and
length. -/
def findImportF : Nat → Nat → List Char → Option (Nat × Nat)
  | 0, _, _ => none
  | n + 1, p, cs =>
    match importStmtLen cs with
    | some L => some (p, L)
    | none =>
      match cs with
      | [] => none
      | _ :: cs2 => findImportF n (p + 1) cs2

def findImportStmt (t : List Char) : Option (Nat × Nat) :=
  findImportF (t.length + 1) 0 t

/-- The import-insertion block of `refactor_logs.refactor_file`: runs only
when a replacement occurred, the `log, logError` substring is absent, the
full import line is absent, and an existing import statement is found; the
new line goes right after the end of the first match. -/
def import_step (count : Nat) (content : List Char) : List Char :=
  if count = 0 then content
  else if substrB (str "log, logError") content then content
  else if substrB importLine content then content
  else
    match findImportStmt content with
    | some (p, L) =>
      content.take (p + L) ++ '\n' :: (importLine ++ content.drop (p + L))
    | none => content

/-- `refactor_file` of refactor_logs.py: five counted passes, import step,
and the final `content if count > 0 else original_content`. -/
def refactor_file (content : List Char) : Nat × List Char :=
  let p1 := subNF (matchIcons (str "console.log(`$\x7bICONS.") mkIconsLog)
    content.length content
  let p2 := subNF (matchIcons (str "console.warn(`$\x7bICONS.") mkIconsWarn)
    p1.1.length p1.1
  let p3 := subNF (matchIcons (str "console.error(`$\x7bICONS.") mkIconsErr)
    p2.1.length p2.1
  let p4 := subNF (matchPlain (str "console.log('") mkPlainLog)
    p3.1.length p3.1
  let p5 := subNF (matchPlain (str "console.error('") mkPlainErr)
    p4.1.length p4.1
  let n := p1.2 + p2.2 + p3.2 + p4.2 + p5.2
  let c6 := import_step n p5.1
  (n, if 0 < n then c6 else content)

/-- The on-disk text after one run on `content` (`main` writes back exactly
when the count is positive, with the returned content). -/
def rewritten (content : List Char) : List Char :=
  (refactor_file content).2

/-- `main` of refactor_logs.py: usage exit on no arguments, `sys.exit(1)`
when the (single) file argument does not exist, else write-back when the
count is positive. -/
def main (args : List String) (fs : List (String × List Char)) :
    Nat × List (String × List Char) :=
  match args with
  | [] => (1, fs)
  | f :: _ =>
    match RefactorLogger.fsRead fs f with
    | none => (1, fs)
    | some c =>
      let r := refactor_file c
      if r.1 = 0 then (0, fs) else (0, RefactorLogger.fsWrite fs f r.2)

end RefactorLogs

/-! ### Basic lemmas about the scanning combinators -/

theorem isPrefixOf_true {l m : List Char} (h : l.isPrefixOf m = true) :
    ∃ r, m = l ++ r := by
  have h2 : l <+: m := by simpa using h
  obtain ⟨t, ht⟩ := h2
  exact ⟨t, ht.symm⟩

theorem isPrefixOf_self_append {l r : List Char} : l.isPrefixOf (l ++ r) = true := by
  simp

theorem substrB_iff {p l : List Char} : substrB p l = true ↔ p <:+: l := by
  induction l with
  | nil =>
    simp [substrB]
  | cons c cs ih =>
    constructor
    · intro h
      have h' : p <+: (c :: cs) ∨ substrB p cs = true := by simpa [substrB] using h
      rcases h' with h | h
      · obtain ⟨t, ht⟩ := h
        exact ⟨[], t, by simpa using ht⟩
      · exact List.infix_cons (ih.mp h)
    · intro h
      rcases List.infix_cons_iff.mp h with h | h
      · obtain ⟨t, ht⟩ := h
        have hp : p.isPrefixOf (c :: cs) = true := by
          rw [← ht]; exact isPrefixOf_self_append
        simp [substrB, hp]
      · simp [substrB, ih.mpr h]

theorem substrB_trans {a b c : List Char} (h1 : substrB a b = true)
    (h2 : substrB b c = true) : substrB a c = true :=
  substrB_iff.mpr ((substrB_iff.mp h1).trans (substrB_iff.mp h2))

theorem substrB_self_append {p r : List Char} : substrB p (p ++ r) = true :=
  substrB_iff.mpr ⟨[], r, by simp⟩

theorem dropLit_some : ∀ {l cs r : List Char}, dropLit l cs = some r → cs = l ++ r := by
  intro l
  induction l with
  | nil => intro cs r h; simp [dropLit] at h; simp [h]
  | cons x xs ih =>
    intro cs r h
    cases cs with
    | nil => simp [dropLit] at h
    | cons c cs' =>
      by_cases hc : c = x
      · subst hc
        simp only [dropLit, if_pos rfl] at h
        simpa using ih h
      · simp [dropLit, hc] at h

theorem dropLit_self_append : ∀ (l r : List Char), dropLit l (l ++ r) = some r := by
  intro l r
  induction l with
  | nil => rfl
  | cons c cs ih => simpa [dropLit] using ih

theorem subNF_id {m : List Char → Option (List Char × List Char)} :
    ∀ (n : Nat) (cs : List Char), (∀ u, u <:+ cs → m u = none) →
      subNF m n cs = (cs, 0) := by
  intro n
  induction n with
  | zero => intro cs _; rfl
  | succ k ih =>
    intro cs h
    cases cs with
    | nil => rfl
    | cons c cs' =>
      have h0 : m (c :: cs') = none := h _ (List.suffix_refl _)
      have h1 : ∀ u, u <:+ cs' → m u = none :=
        fun u hu => h u (hu.trans (List.suffix_cons c cs'))
      simp [subNF, h0, ih cs' h1]

theorem takeWhile_app {p : Char → Bool} (x : Char) (r : List Char) (hx : p x = false) :
    ∀ (m : List Char), (∀ c ∈ m, p c = true) →
      (m ++ x :: r).takeWhile p = m ∧ (m ++ x :: r).dropWhile p = x :: r := by
  intro m
  induction m with
  | nil => intro _; simp [List.takeWhile_cons, List.dropWhile_cons, hx]
  | cons a as ih =>
    intro hm
    have ha : p a = true := hm a (by simp)
    have h2 := ih (fun c hc => hm c (by simp [hc]))
    simp [List.takeWhile_cons, List.dropWhile_cons, ha, h2.1, h2.2]

theorem word_not_ws {c : Char} (h : isWord c = true) : isWS c = false := by
  rcases Bool.eq_false_or_eq_true (isWS c) with ht | hf
  case inr => exact hf
  · exfalso
    have hc : c = ' ' ∨ c = '\t' ∨ c = '\n' ∨ c = '\x0d' ∨ c = '\x0b' ∨ c = '\x0c' := by
      simpa [isWS, or_assoc] using ht
    rcases hc with h1 | h1 | h1 | h1 | h1 | h1 <;> subst h1 <;>
      exact absurd h (by decide)

/-! ### No console occurrence: nothing matches, nothing changes -/

namespace RefactorLogger

theorem consMatchLen_nil : consMatchLen [] = none := rfl

theorem countF_zero : ∀ (n : Nat) (cs : List Char), countConsoleF n cs = 0 →
    cs.length ≤ n → ∀ u, u <:+ cs → consMatchLen u = none := by
  intro n
  induction n with
  | zero =>
    intro cs _ hl u hu
    have : cs = [] := List.eq_nil_of_length_eq_zero (Nat.le_zero.mp hl)
    subst this
    have : u = [] := List.eq_nil_of_suffix_nil hu
    subst this
    rfl
  | succ k ih =>
    intro cs h hl u hu
    cases cs with
    | nil =>
      have : u = [] := List.eq_nil_of_suffix_nil hu
      subst this; rfl
    | cons c cs' =>
      cases hm : consMatchLen (c :: cs') with
      | some L => rw [countConsoleF, hm] at h; simp at h
      | none =>
        have h' : countConsoleF k cs' = 0 := by rwa [countConsoleF, hm] at h
        rcases List.suffix_cons_iff.mp hu with h1 | h1
        · rw [h1]; exact hm
        · exact ih cs' h' (Nat.le_of_succ_le_succ (by simpa using hl)) u h1

theorem countConsole_zero_suffix {t : List Char} (h : countConsole t = 0) :
    ∀ u, u <:+ t → consMatchLen u = none :=
  countF_zero t.length t h le_rfl

end RefactorLogger

/-- A matcher built on `dropLit lit` only succeeds when `lit` starts the
text. -/
theorem matchIcons_lit {lit : List Char} {mk : List Char → List Char → List Char}
    {cs : List Char} {x : List Char × List Char}
    (h : RefactorLogs.matchIcons lit mk cs = some x) :
    ∃ r, dropLit lit cs = some r := by
  cases hd : dropLit lit cs with
  | none => rw [RefactorLogs.matchIcons, hd] at h; exact absurd h (by simp)
  | some r => exact ⟨r, rfl⟩

theorem matchPlain_lit {lit : List Char} {mk : List Char → List Char → List Char}
    {cs : List Char} {x : List Char × List Char}
    (h : RefactorLogs.matchPlain lit mk cs = some x) :
    ∃ r, dropLit lit cs = some r := by
  cases hd : dropLit lit cs with
  | none => rw [RefactorLogs.matchPlain, hd] at h; exact absurd h (by simp)
  | some r => exact ⟨r, rfl⟩

theorem consMatch_iconsLog (r : List Char) :
    RefactorLogger.consMatchLen (str "console.log(`$\x7bICONS." ++ r) = some 11 := rfl

theorem consMatch_iconsWarn (r : List Char) :
    RefactorLogger.consMatchLen (str "console.warn(`$\x7bICONS." ++ r) = some 12 := rfl

theorem consMatch_iconsErr (r : List Char) :
    RefactorLogger.consMatchLen (str "console.error(`$\x7bICONS." ++ r) = some 13 := rfl

theorem consMatch_plainLog (r : List Char) :
    RefactorLogger.consMatchLen (str "console.log('" ++ r) = some 11 := rfl

theorem consMatch_plainErr (r : List Char) :
    RefactorLogger.consMatchLen (str "console.error('" ++ r) = some 13 := rfl

/-- A matcher that demands the literal `lit`, where `lit` starts with one of
the console alternatives, never fires on console-free text. -/
theorem pass_none_of_consoleFree {t : List Char}
    (hfree : ∀ u, u <:+ t → RefactorLogger.consMatchLen u = none)
    {m : List Char → Option (List Char × List Char)} {lit : List Char} {k : Nat}
    (hlit : ∀ u x, m u = some x → ∃ r, dropLit lit u = some r)
    (hcm : ∀ r, RefactorLogger.consMatchLen (lit ++ r) = some k) :
    ∀ u, u <:+ t → m u = none := by
  intro u hu
  cases hx : m u with
  | none => rfl
  | some x =>
    obtain ⟨r, hr⟩ := hlit u x hx
    have hu' := hfree u hu
    rw [dropLit_some hr, hcm] at hu'
    exact absurd hu' (by simp)

namespace RefactorLogs

/-- On console-free text every pass of refactor_logs.py matches nothing, so
`refactor_file` returns count 0 and the original content. -/
theorem logsFile_consoleFree {t : List Char}
    (h : RefactorLogger.countConsole t = 0) : refactor_file t = (0, t) := by
  have hfree := RefactorLogger.countConsole_zero_suffix h
  have e1 := subNF_id (m := matchIcons (str "console.log(`$\x7bICONS.") mkIconsLog)
    t.length t (pass_none_of_consoleFree hfree
      (fun _ _ h => matchIcons_lit h) consMatch_iconsLog)
  have e2 := subNF_id (m := matchIcons (str "console.warn(`$\x7bICONS.") mkIconsWarn)
    t.length t (pass_none_of_consoleFree hfree
      (fun _ _ h => matchIcons_lit h) consMatch_iconsWarn)
  have e3 := subNF_id (m := matchIcons (str "console.error(`$\x7bICONS.") mkIconsErr)
    t.length t (pass_none_of_consoleFree hfree
      (fun _ _ h => matchIcons_lit h) consMatch_iconsErr)
  have e4 := subNF_id (m := matchPlain (str "console.log('") mkPlainLog)
    t.length t (pass_none_of_consoleFree hfree
      (fun _ _ h => matchPlain_lit h) consMatch_plainLog)
  have e5 := subNF_id (m := matchPlain (str "console.error('") mkPlainErr)
    t.length t (pass_none_of_consoleFree hfree
      (fun _ _ h => matchPlain_lit h) consMatch_plainErr)
  simp only [refactor_file, e1, e2, e3, e4, e5]
  simp [import_step]

end RefactorLogs

namespace RefactorLogger

/-- Console-free text short-circuits `refactor_file`: no write, count 0. -/
theorem refactor_file_consoleFree {t : List Char} (h : countConsole t = 0) :
    refactor_file t = (none, 0) := by
  simp [refactor_file, h]

theorem rewritten_consoleFree {t : List Char} (h : countConsole t = 0) :
    rewritten t = t := by
  simp [rewritten, refactor_file_consoleFree h]

end RefactorLogger

/-! ### Lines: split and join -/

theorem splitLines_ne_nil : ∀ (t : List Char), splitLines t ≠ [] := by
  intro t
  cases t with
  | nil => simp [splitLines]
  | cons c cs =>
    by_cases hc : c = '\n'
    · simp [splitLines, hc]
    · simp only [splitLines, if_neg hc]
      cases h : splitLines cs with
      | nil => simp
      | cons l ls => simp

theorem splitLines_noNL {l : List Char} (h : '\n' ∉ l) : splitLines l = [l] := by
  induction l with
  | nil => rfl
  | cons c cs ih =>
    have hc : ¬ c = '\n' := fun e => h (by simp [e])
    have hcs : splitLines cs = [cs] := ih (fun hm => h (by simp [hm]))
    simp [splitLines, hc, hcs]

theorem splitLines_append_nl {a : List Char} (h : '\n' ∉ a) :
    ∀ (r : List Char), splitLines (a ++ '\n' :: r) = a :: splitLines r := by
  induction a with
  | nil => intro r; simp [splitLines]
  | cons c cs ih =>
    intro r
    have hc : ¬ c = '\n' := fun e => h (by simp [e])
    have hcs := ih (fun hm => h (by simp [hm])) r
    show splitLines (c :: (cs ++ '\n' :: r)) = (c :: cs) :: splitLines r
    rw [splitLines, if_neg hc, hcs]

theorem splitLines_joinLines : ∀ (ls : List (List Char)),
    (∀ l ∈ ls, '\n' ∉ l) → ls ≠ [] → splitLines (joinLines ls) = ls := by
  intro ls
  induction ls with
  | nil => intro _ h; exact absurd rfl h
  | cons x ls' ih =>
    intro hnl _
    cases ls' with
    | nil => exact splitLines_noNL (hnl x (by simp))
    | cons y ls'' =>
      have hx : '\n' ∉ x := hnl x (by simp)
      have : joinLines (x :: y :: ls'') = x ++ '\n' :: joinLines (y :: ls'') := rfl
      rw [this, splitLines_append_nl hx,
        ih (fun l hl => hnl l (by simp [hl])) (by simp)]

theorem splitLines_mem_noNL : ∀ (t : List Char), ∀ l ∈ splitLines t, '\n' ∉ l := by
  intro t
  induction t with
  | nil => intro l hl; simp [splitLines] at hl; simp [hl]
  | cons c cs ih =>
    intro l hl
    by_cases hc : c = '\n'
    · simp only [splitLines, if_pos hc] at hl
      rcases List.mem_cons.mp hl with h | h
      · simp [h]
      · exact ih l h
    · simp only [splitLines, if_neg hc] at hl
      cases hsp : splitLines cs with
      | nil => exact absurd hsp (splitLines_ne_nil cs)
      | cons a as =>
        rw [hsp] at hl
        rcases List.mem_cons.mp hl with h | h
        · subst h
          intro hmem
          rcases List.mem_cons.mp hmem with h | h
          · exact hc h.symm
          · exact ih a (by simp [hsp]) h
        · exact ih l (by simp [hsp, h])

theorem joinLines_substr {x : List Char} : ∀ {ls : List (List Char)}, x ∈ ls →
    substrB x (joinLines ls) = true := by
  intro ls h
  rw [substrB_iff]
  obtain ⟨s, t, hst⟩ := List.append_of_mem h
  subst hst
  clear h
  induction s with
  | nil =>
    cases t with
    | nil => exact List.infix_refl x
    | cons y ts => exact ⟨[], '\n' :: joinLines (y :: ts), rfl⟩
  | cons a s' ih =>
    show x <:+: joinLines (a :: (s' ++ x :: t))
    obtain ⟨s0, t0, h0⟩ := ih
    have hj : joinLines (a :: (s' ++ x :: t)) = a ++ '\n' :: joinLines (s' ++ x :: t) := by
      cases hsx : s' ++ x :: t with
      | nil => simp at hsx
      | cons b rest => rfl
    rw [hj]
    exact ⟨a ++ '\n' :: s0, t0, by rw [← h0]; simp⟩

/-! ### The last-import-index loop of add_logger_import -/

theorem getD_mem_of_lt {l : List (List Char)} {n : Nat} (h : n < l.length) :
    l.getD n [] ∈ l := by
  rw [List.getD_eq_getElem _ _ h]
  exact List.getElem_mem h

namespace RefactorLogger

theorem lastAux_spec {p : List Char → Bool} :
    ∀ (ls : List (List Char)) (i : Nat) (acc : Option Nat),
      (lastIdxWhereAux p i acc ls = acc ∧ ∀ l ∈ ls, p l = false) ∨
      (∃ k, k < ls.length ∧ p (ls.getD k []) = true ∧
        lastIdxWhereAux p i acc ls = some (i + k) ∧
        ∀ j, k < j → j < ls.length → p (ls.getD j []) = false) := by
  intro ls
  induction ls with
  | nil => intro i acc; left; exact ⟨rfl, by simp⟩
  | cons l ls' ih =>
    intro i acc
    rcases ih (i + 1) (if p l then some i else acc) with ⟨h1, h2⟩ | ⟨k, hk, hp, he, hafter⟩
    · by_cases hl : p l = true
      · right
        refine ⟨0, by simp, by simpa using hl, ?_, ?_⟩
        · show lastIdxWhereAux p (i + 1) (if p l then some i else acc) ls' = some (i + 0)
          rw [h1]
          simp [hl]
        · intro j hj hjl
          cases j with
          | zero => omega
          | succ j' =>
            have hj' : j' < ls'.length := by simpa using hjl
            simpa using h2 _ (getD_mem_of_lt hj')
      · left
        constructor
        · show lastIdxWhereAux p (i + 1) (if p l then some i else acc) ls' = acc
          rw [h1]
          simp [hl]
        · intro x hx
          rcases List.mem_cons.mp hx with h | h
          · subst h; simpa using hl
          · exact h2 x h
    · right
      refine ⟨k + 1, by simpa using hk, by simpa using hp, ?_, ?_⟩
      · show lastIdxWhereAux p (i + 1) (if p l then some i else acc) ls' = some (i + (k + 1))
        rw [he]
        congr 1
        omega
      · intro j hj hjl
        cases j with
        | zero => omega
        | succ j' =>
          have ha : k < j' := by omega
          have hb : j' < ls'.length := by simpa using hjl
          simpa using hafter j' ha hb

/-- What `some i` from the last-import scan means: `i` is a valid index, the
line at `i` matches, and no later line does. -/
theorem lastImportIdx_some {ls : List (List Char)} {i : Nat}
    (h : lastImportIdx ls = some i) :
    i < ls.length ∧ isImportLine (ls.getD i []) = true ∧
      ∀ j, i < j → j < ls.length → isImportLine (ls.getD j []) = false := by
  rcases lastAux_spec (p := isImportLine) ls 0 none with ⟨h1, _⟩ | ⟨k, hk, hp, he, hafter⟩
  · rw [lastImportIdx] at h
    rw [h1] at h
    exact absurd h (by simp)
  · rw [lastImportIdx] at h
    rw [he] at h
    have : k = i := by simpa using h
    subst this
    exact ⟨hk, hp, hafter⟩

/-- `none` from the last-import scan means no line matches. -/
theorem lastImportIdx_none {ls : List (List Char)}
    (h : lastImportIdx ls = none) : ∀ l ∈ ls, isImportLine l = false := by
  rcases lastAux_spec (p := isImportLine) ls 0 none with ⟨_, h2⟩ | ⟨k, _, _, he, _⟩
  · exact h2
  · rw [lastImportIdx] at h
    rw [he] at h
    exact absurd h (by simp)

end RefactorLogger

namespace RefactorLogger

theorem add_logger_import_of_has {t : List Char} (h : has_logger_import t = true) :
    add_logger_import t = t := by
  simp [add_logger_import, h]

/-- When the import is absent, the insertion step always puts the import
line into the text (regardless of whether any pattern will match). -/
theorem add_logger_import_substr {t : List Char} (h : has_logger_import t = false) :
    substrB importLine (add_logger_import t) = true := by
  rw [add_logger_import, h]
  simp only [Bool.false_eq_true, if_false]
  cases hl : lastImportIdx (splitLines t) with
  | some i =>
    exact joinLines_substr (by simp [insertAt])
  | none =>
    exact substrB_self_append

/-- With a last import line at index `i`, `add_logger_import` inserts the
new line at position `i + 1` of the line list. -/
theorem add_logger_import_insert {t : List Char} {i : Nat}
    (h : has_logger_import t = false)
    (hl : lastImportIdx (splitLines t) = some i) :
    splitLines (add_logger_import t) = insertAt (i + 1) importLine (splitLines t) := by
  rw [add_logger_import, h]
  simp only [Bool.false_eq_true, if_false]
  rw [hl]
  apply splitLines_joinLines
  · intro l hm
    have hm' : l ∈ List.take (i + 1) (splitLines t) ∨ l = importLine ∨
        l ∈ List.drop (i + 1) (splitLines t) := by simpa [insertAt] using hm
    rcases hm' with hm1 | hm1 | hm1
    · exact splitLines_mem_noNL t l (List.mem_of_mem_take hm1)
    · subst hm1; decide
    · exact splitLines_mem_noNL t l (List.mem_of_mem_drop hm1)
  · simp [insertAt]

/-- With no import line anywhere, the import goes to the very top. -/
theorem add_logger_import_top {t : List Char}
    (h : has_logger_import t = false)
    (hl : lastImportIdx (splitLines t) = none) :
    add_logger_import t = importLine ++ '\n' :: '\n' :: t := by
  rw [add_logger_import, h]
  simp only [Bool.false_eq_true, if_false]
  rw [hl]

/-- At most one copy of the import line is added per run. -/
theorem add_logger_import_count (t : List Char) :
    (splitLines (add_logger_import t)).count importLine ≤
      (splitLines t).count importLine + 1 := by
  cases hh : has_logger_import t with
  | true => rw [add_logger_import_of_has hh]; omega
  | false =>
    cases hl : lastImportIdx (splitLines t) with
    | some i =>
      rw [add_logger_import_insert hh hl]
      have hsplit : (splitLines t).count importLine =
          ((splitLines t).take (i + 1)).count importLine +
          ((splitLines t).drop (i + 1)).count importLine := by
        conv_lhs => rw [← List.take_append_drop (i + 1) (splitLines t)]
        rw [List.count_append]
      rw [insertAt, List.count_append, List.count_cons_self]
      omega
    | none =>
      rw [add_logger_import_top hh hl]
      have h1 : importLine ++ '\n' :: '\n' :: t = importLine ++ '\n' :: ('\n' :: t) := rfl
      rw [h1, splitLines_append_nl (by decide)]
      have h2 : splitLines ('\n' :: t) = [] :: splitLines t := by simp [splitLines]
      rw [h2, List.count_cons_self, List.count_cons]
      have he : (([] : List Char) == importLine) = false := rfl
      simp [he]

end RefactorLogger

namespace RefactorLogs

theorem findImportF_spec : ∀ (n p0 : Nat) (cs : List Char) (q L : Nat),
    findImportF n p0 cs = some (q, L) →
    p0 ≤ q ∧
    importStmtLen (cs.drop (q - p0)) = some L ∧
    ∀ r, p0 ≤ r → r < q → importStmtLen (cs.drop (r - p0)) = none := by
  intro n
  induction n with
  | zero =>
    intro p0 cs q L h
    exact absurd h (by simp [findImportF])
  | succ k ih =>
    intro p0 cs q L h
    cases hm : importStmtLen cs with
    | some L' =>
      simp only [findImportF, hm] at h
      have hq : p0 = q ∧ L' = L := by simpa using h
      obtain ⟨hq1, hq2⟩ := hq
      subst hq1
      subst hq2
      refine ⟨le_rfl, by simpa using hm, ?_⟩
      intro r h1 h2
      omega
    | none =>
      cases cs with
      | nil =>
        simp only [findImportF, hm] at h
        exact absurd h (by simp)
      | cons c cs2 =>
        simp only [findImportF, hm] at h
        obtain ⟨h1, h2, h3⟩ := ih (p0 + 1) cs2 q L h
        refine ⟨by omega, ?_, ?_⟩
        · have hqe : q - p0 = (q - (p0 + 1)) + 1 := by omega
          rw [hqe]
          simpa using h2
        · intro r hr1 hr2
          by_cases hr : r = p0
          · subst hr
            simpa using hm
          · have hre : r - p0 = (r - (p0 + 1)) + 1 := by omega
            rw [hre]
            simpa using h3 r (by omega) hr2

/-- The leftmost import-statement match: characterization of the search. -/
theorem findImportStmt_spec {t : List Char} {p L : Nat}
    (h : findImportStmt t = some (p, L)) :
    importStmtLen (t.drop p) = some L ∧
      ∀ r, r < p → importStmtLen (t.drop r) = none := by
  obtain ⟨_, h2, h3⟩ := findImportF_spec (t.length + 1) 0 t p L h
  exact ⟨by simpa using h2, fun r hr => by simpa using h3 r (Nat.zero_le r) hr⟩

theorem import_step_zero (t : List Char) : import_step 0 t = t := by
  simp [import_step]

/-- No import statement in the content: the import block inserts nothing. -/
theorem import_step_noStmt {n : Nat} {t : List Char}
    (h : findImportStmt t = none) : import_step n t = t := by
  unfold import_step
  by_cases h0 : n = 0
  · simp [h0]
  · by_cases hs1 : substrB (str "log, logError") t = true
    · simp [h0, hs1]
    · by_cases hs2 : substrB importLine t = true
      · simp [h0, hs1, hs2]
      · simp [h0, hs1, hs2, h]

/-- With a first import-statement match ending at `p + L`, the import line is
spliced in right after it. -/
theorem import_step_insert {n : Nat} {t : List Char} {p L : Nat} (hn : n ≠ 0)
    (hs : substrB (str "log, logError") t = false)
    (hf : findImportStmt t = some (p, L)) :
    import_step n t = t.take (p + L) ++ '\n' :: (importLine ++ t.drop (p + L)) := by
  have hs2 : substrB importLine t = false := by
    cases hb : substrB importLine t
    · rfl
    · have hsub : substrB (str "log, logError") importLine = true := by decide
      exact absurd (substrB_trans hsub hb) (by simp [hs])
  simp [import_step, hn, hs, hs2, hf]

end RefactorLogs

/-! ### Forward evaluation of the matchers on well-formed calls -/

theorem dropWhile_not_head {p : Char → Bool} {c : Char} {l : List Char}
    (h : p c = false) : (c :: l).dropWhile p = c :: l := by
  simp [List.dropWhile_cons, h]

/-- `matchStrVar` on a call `LIT'msg', var)`: the replacement takes the
error variable first, the bracket-cleaned trimmed message second, and the
fixed metadata object third. -/
theorem matchStrVar_call (lit : List Char) {msg v : List Char}
    (hm : msg ≠ []) (hmq : ∀ c ∈ msg, isQuote c = false)
    (hv : v ≠ []) (hvw : ∀ c ∈ v, isWord c = true) :
    matchStrVar lit (lit ++ '\'' :: (msg ++ '\'' :: ',' :: ' ' :: (v ++ [')']))) =
      some (str "logError(" ++ v ++ str ", \"" ++
        pyStrip (msg.filter (fun c => !(c = '[' || c = ']'))) ++
        str "\", \x7b component: \"refactored\" \x7d)", []) := by
  have e0 := dropLit_self_append lit ('\'' :: (msg ++ '\'' :: ',' :: ' ' :: (v ++ [')'])))
  have e1 : (('\'' : Char) :: (msg ++ '\'' :: ',' :: ' ' :: (v ++ [')']))).dropWhile isWS
      = '\'' :: (msg ++ '\'' :: ',' :: ' ' :: (v ++ [')'])) :=
    dropWhile_not_head (by decide)
  have hmsg := takeWhile_app (p := fun c => !isQuote c) '\'' (',' :: ' ' :: (v ++ [')']))
    (by decide) msg (fun c hc => by simp [hmq c hc])
  have e2 : ((',' : Char) :: ' ' :: (v ++ [')'])).dropWhile isWS
      = ',' :: ' ' :: (v ++ [')']) := dropWhile_not_head (by decide)
  have e3 : ((' ' : Char) :: (v ++ [')'])).dropWhile isWS = (v ++ [')']).dropWhile isWS := by
    have hsp : isWS ' ' = true := rfl
    simp [List.dropWhile_cons, hsp]
  have e4 : (v ++ [')']).dropWhile isWS = v ++ [')'] := by
    cases hvv : v with
    | nil => exact absurd hvv hv
    | cons a as =>
      have ha : isWS a = false := word_not_ws (hvw a (by simp [hvv]))
      exact dropWhile_not_head ha
  have hvar := takeWhile_app (p := isWord) ')' [] (by decide) v hvw
  have e5 : (List.cons (')' : Char) []).dropWhile isWS = [')'] :=
    dropWhile_not_head (by decide)
  have hmne : msg.isEmpty = false := by simp [hm]
  have hvne : v.isEmpty = false := by simp [hv]
  have q1 : isQuote '\'' = true := rfl
  simp [matchStrVar, e0, e1, q1, hmsg.1, hmsg.2, hmne, e2, e3, e4, hvar.1, hvar.2,
    hvne, e5]

/-- `matchTemplate` on a call `LIT%60msg%60)` whose message contains an
interpolation marker: the emitted message is the marker-stripped, trimmed
message. -/
theorem matchTemplate_call (lit head : List Char) {msg : List Char}
    (hm : msg ≠ []) (hbt : '`' ∉ msg) (hi : substrB interpMark msg = true) :
    matchTemplate lit head (lit ++ '`' :: (msg ++ '`' :: [')'])) =
      some (head ++ str "(\x7b msg: \"" ++ pyStrip (stripInterp msg) ++
        str "\" \x7d)", []) := by
  have e0 := dropLit_self_append lit ('`' :: (msg ++ '`' :: [')']))
  have e1 : (('`' : Char) :: (msg ++ '`' :: [')'])).dropWhile isWS
      = '`' :: (msg ++ '`' :: [')']) := dropWhile_not_head (by decide)
  have hmsg := takeWhile_app (p := fun c => !(c = '`')) '`' [')'] (by decide) msg
    (fun c hc => by
      have : ¬ c = '`' := fun e => hbt (e ▸ hc)
      simp [this])
  have e5 : (List.cons (')' : Char) []).dropWhile isWS = [')'] :=
    dropWhile_not_head (by decide)
  have hmne : msg.isEmpty = false := by simp [hm]
  simp [matchTemplate, e0, e1, hmsg.1, hmsg.2, hmne, e5, hi]

/-! ### Substring preservation under filtering and trimming -/

theorem substr_filter_pair {a b : Char} {l : List Char} {p : Char → Bool}
    (h : [a, b] <:+: l) (ha : p a = true) (hb : p b = true) :
    [a, b] <:+: l.filter p := by
  obtain ⟨s, t, hst⟩ := h
  subst hst
  have he : (s ++ [a, b] ++ t).filter p = s.filter p ++ [a, b] ++ t.filter p := by
    simp [List.filter_append, List.filter_cons, ha, hb]
  rw [he]
  exact List.infix_append _ _ _

theorem substr_dropWhile {pat : List Char} {p : Char → Bool} (hne : pat ≠ [])
    (hp : ∀ c ∈ pat, p c = false) :
    ∀ {l : List Char}, pat <:+: l → pat <:+: l.dropWhile p := by
  intro l
  induction l with
  | nil => intro h; simpa using h
  | cons c cs ih =>
    intro h
    cases hc : p c with
    | false => rw [dropWhile_not_head hc]; exact h
    | true =>
      have hd : (c :: cs).dropWhile p = cs.dropWhile p := by
        simp [List.dropWhile_cons, hc]
      rw [hd]
      apply ih
      rcases List.infix_cons_iff.mp h with h1 | h1
      · obtain ⟨t, ht⟩ := h1
        cases pat with
        | nil => exact absurd rfl hne
        | cons a as =>
          rw [List.cons_append] at ht
          injection ht with ht1 _
          have := hp a (by simp)
          rw [ht1, hc] at this
          exact absurd this (by simp)
      · exact h1

theorem infixRev {pat l : List Char} (h : pat <:+: l) :
    pat.reverse <:+: l.reverse := by
  obtain ⟨s, t, hst⟩ := h
  exact ⟨t.reverse, s.reverse, by rw [← hst]; simp⟩

theorem substr_pyStrip {pat l : List Char} (hne : pat ≠ [])
    (hp : ∀ c ∈ pat, isWS c = false) (h : pat <:+: l) : pat <:+: pyStrip l := by
  have h1 : pat <:+: l.dropWhile isWS := substr_dropWhile hne hp h
  have h2 : pat.reverse <:+: (l.dropWhile isWS).reverse := infixRev h1
  have h3 : pat.reverse <:+: ((l.dropWhile isWS).reverse).dropWhile isWS :=
    substr_dropWhile (by simpa using hne)
      (fun c hc => hp c (by simpa using hc)) h2
  have h4 := infixRev h3
  simpa [pyStrip] using h4

/-! ### Claims -/

/-- C6: for every input text with zero occurrences of
`console.log`/`console.warn`/`console.error`, both Rewriters return output
equal to the input and a replacement count of zero (refactor-logger.py also
performs no write). -/
theorem C6_zero_matches (t : List Char) (h : RefactorLogger.countConsole t = 0) :
    RefactorLogger.rewritten t = t ∧
    RefactorLogger.refactor_file t = (none, 0) ∧
    RefactorLogs.refactor_file t = (0, t) :=
  ⟨RefactorLogger.rewritten_consoleFree h, RefactorLogger.refactor_file_consoleFree h,
   RefactorLogs.logsFile_consoleFree h⟩

/-- C6 witness: a concrete console-free input. -/
theorem C6_zero_matches_witness :
    RefactorLogger.rewritten (str "const x = 1;") = str "const x = 1;" ∧
    RefactorLogs.refactor_file (str "const x = 1;") = (0, str "const x = 1;") :=
  ⟨(C6_zero_matches (str "const x = 1;") (by decide)).1,
   (C6_zero_matches (str "const x = 1;") (by decide)).2.2⟩

/-- C3 counterexample: refactor_logs.py invoked with one file argument that
does not exist exits with status 1, although at least one argument was
supplied. -/
theorem C3_counterexample :
    (RefactorLogs.main ["app.ts"] []).1 = 1 ∧ (["app.ts"] : List String) ≠ [] :=
  ⟨rfl, by simp⟩

/-- C3 amended: refactor-logger.py exits non-zero exactly when no file
argument is given (missing files are skipped, the run continues); but
refactor_logs.py exits zero only when its first (and only processed) file
argument names an existing file. -/
theorem C3_amended :
    (∀ (args : List String) (fs : List (String × List Char)),
      (RefactorLogger.main args fs).1 = 0 ↔ args ≠ []) ∧
    (∀ (args : List String) (fs : List (String × List Char)),
      (RefactorLogs.main args fs).1 = 0 ↔
        ∃ f r, args = f :: r ∧ (RefactorLogger.fsRead fs f).isSome = true) := by
  constructor
  · intro args fs
    cases args with
    | nil => simp [RefactorLogger.main]
    | cons a as => simp [RefactorLogger.main]
  · intro args fs
    cases args with
    | nil => simp [RefactorLogs.main]
    | cons f r =>
      cases hr : RefactorLogger.fsRead fs f with
      | none =>
        simp only [RefactorLogs.main, hr]
        constructor
        · intro h
          exact absurd h (by simp)
        · rintro ⟨f', r', he, hs⟩
          injection he with he1 _
          subst he1
          rw [hr] at hs
          simp at hs
      | some c =>
        have hmain : (RefactorLogs.main (f :: r) fs).1 = 0 := by
          simp only [RefactorLogs.main, hr]
          split <;> rfl
        constructor
        · intro _
          exact ⟨f, r, rfl, by simp [hr]⟩
        · intro _
          exact hmain

/-- C7: a logging call passing a string message plus an error-value
argument is emitted with the error value first, the cleaned message second,
and the fixed metadata object third; concretely,
`console.error('Failed:', err)` becomes
`logError(err, "Failed:", { component: "refactored" })` with count 1. -/
theorem C7_error_value_first :
    (∀ (msg v : List Char), msg ≠ [] → (∀ c ∈ msg, isQuote c = false) →
      v ≠ [] → (∀ c ∈ v, isWord c = true) →
      matchStrVar (str "console.error(")
        (str "console.error(" ++ '\'' :: (msg ++ '\'' :: ',' :: ' ' :: (v ++ [')']))) =
        some (str "logError(" ++ v ++ str ", \"" ++
          pyStrip (msg.filter (fun c => !(c = '[' || c = ']'))) ++
          str "\", \x7b component: \"refactored\" \x7d)", [])) ∧
    RefactorLogger.refactor_file (str "console.error('Failed:', err)") =
      (some (importLine ++ '\n' :: '\n' ::
        str "logError(err, \"Failed:\", \x7b component: \"refactored\" \x7d)"), 1) := by
  constructor
  · intro msg v h1 h2 h3 h4
    exact matchStrVar_call _ h1 h2 h3 h4
  · decide

/-- C7 witness: the general conjunct instantiated at the spec's example. -/
theorem C7_error_value_first_witness :
    matchStrVar (str "console.error(")
      (str "console.error(" ++ '\'' ::
        (str "Failed:" ++ '\'' :: ',' :: ' ' :: (str "err" ++ [')']))) =
      some (str "logError(" ++ str "err" ++ str ", \"" ++
        pyStrip ((str "Failed:").filter (fun c => !(c = '[' || c = ']'))) ++
        str "\", \x7b component: \"refactored\" \x7d)", []) :=
  C7_error_value_first.1 (str "Failed:") (str "err") (by decide) (by decide)
    (by decide) (by decide)

/-- C10: for both the console.error and console.warn string-plus-variable
patterns, the emitted message is the original message with every '[' and
']' character deleted and surrounding whitespace trimmed. -/
theorem C10_bracket_cleaning :
    ∀ (msg v : List Char), msg ≠ [] → (∀ c ∈ msg, isQuote c = false) →
      v ≠ [] → (∀ c ∈ v, isWord c = true) →
      matchStrVar (str "console.error(")
        (str "console.error(" ++ '\'' :: (msg ++ '\'' :: ',' :: ' ' :: (v ++ [')']))) =
        some (str "logError(" ++ v ++ str ", \"" ++
          pyStrip (msg.filter (fun c => !(c = '[' || c = ']'))) ++
          str "\", \x7b component: \"refactored\" \x7d)", []) ∧
      matchStrVar (str "console.warn(")
        (str "console.warn(" ++ '\'' :: (msg ++ '\'' :: ',' :: ' ' :: (v ++ [')']))) =
        some (str "logError(" ++ v ++ str ", \"" ++
          pyStrip (msg.filter (fun c => !(c = '[' || c = ']'))) ++
          str "\", \x7b component: \"refactored\" \x7d)", []) :=
  fun _ _ h1 h2 h3 h4 =>
    ⟨matchStrVar_call _ h1 h2 h3 h4, matchStrVar_call _ h1 h2 h3 h4⟩

/-- C10 witness: `[Component] Error:` becomes `Component Error:` in the
emitted call. -/
theorem C10_bracket_cleaning_witness :
    matchStrVar (str "console.warn(")
      (str "console.warn(" ++ '\'' ::
        (str "[Component] Error:" ++ '\'' :: ',' :: ' ' :: (str "error" ++ [')']))) =
      some (str "logError(error, \"Component Error:\", \x7b component: \"refactored\" \x7d)",
        []) := by
  have h := (C10_bracket_cleaning (str "[Component] Error:") (str "error")
    (by decide) (by decide) (by decide) (by decide)).2
  rw [h]
  decide

/-- C8: at most one logger import line is added per run, and when either
quoted form of the import line is already present neither script inserts
anything. -/
theorem C8_no_duplicate_import :
    (∀ t : List Char, substrB importLine t = true ∨ substrB importLineD t = true →
      RefactorLogger.add_logger_import t = t ∧
      ∀ n, RefactorLogs.import_step n t = t) ∧
    (∀ t : List Char,
      (splitLines (RefactorLogger.add_logger_import t)).count importLine ≤
        (splitLines t).count importLine + 1) := by
  constructor
  · intro t h
    have hs1 : substrB (str "log, logError") t = true := by
      rcases h with h | h
      · exact substrB_trans (by decide) h
      · exact substrB_trans (by decide) h
    have hhas : RefactorLogger.has_logger_import t = true := by
      rcases h with h | h
      · have hf : substrB (str "from '@/lib/services/logger'") t = true :=
          substrB_trans (by decide) h
        simp [RefactorLogger.has_logger_import, hf]
      · have hf : substrB (str "from \"@/lib/services/logger\"") t = true :=
          substrB_trans (by decide) h
        simp [RefactorLogger.has_logger_import, hf]
    refine ⟨RefactorLogger.add_logger_import_of_has hhas, ?_⟩
    intro n
    by_cases hn : n = 0
    · simp [RefactorLogs.import_step, hn]
    · simp [RefactorLogs.import_step, hn, hs1]
  · exact RefactorLogger.add_logger_import_count

/-- C8 witness: a text already holding the single-quoted import line is
left unchanged by both insertion steps. -/
theorem C8_no_duplicate_import_witness :
    RefactorLogger.add_logger_import importLine = importLine ∧
    RefactorLogs.import_step 1 importLine = importLine :=
  ⟨(C8_no_duplicate_import.1 importLine (Or.inl (by decide))).1,
   (C8_no_duplicate_import.1 importLine (Or.inl (by decide))).2 1⟩

/-- C1 counterexample: on `console.warn(x)` no rewrite pass replaces
anything (the three refactor functions are the identity on the text even
after import insertion), yet refactor-logger.py inserts the import line:
the insertion is keyed on the console count, not on replacements. -/
theorem C1_counterexample :
    RefactorLogger.passes (RefactorLogger.add_logger_import (str "console.warn(x)")) =
      RefactorLogger.add_logger_import (str "console.warn(x)") ∧
    substrB importLine (RefactorLogger.rewritten (str "console.warn(x)")) = true ∧
    substrB importLine (str "console.warn(x)") = false :=
  ⟨by decide, by decide, by decide⟩

/-- C1 amended: refactor-logger.py inserts the import line whenever that
line is absent and the text contains any console occurrence — the step
itself is not conditioned on a replacement having occurred; an input with
no console occurrence never gains the import; refactor_logs.py does
condition its insertion on a positive replacement count. -/
theorem C1_amended :
    (∀ t : List Char, RefactorLogger.has_logger_import t = false →
      substrB importLine (RefactorLogger.add_logger_import t) = true) ∧
    (∀ t : List Char, RefactorLogger.countConsole t = 0 →
      substrB importLine (RefactorLogger.rewritten t) = substrB importLine t) ∧
    (∀ t : List Char, RefactorLogs.import_step 0 t = t) := by
  refine ⟨fun t h => RefactorLogger.add_logger_import_substr h, ?_,
    fun t => RefactorLogs.import_step_zero t⟩
  intro t h
  rw [RefactorLogger.rewritten_consoleFree h]

/-- C1 amended witness. -/
theorem C1_amended_witness :
    substrB importLine (RefactorLogger.add_logger_import (str "let a = 1;")) = true ∧
    substrB importLine (RefactorLogger.rewritten (str "let a = 1;")) =
      substrB importLine (str "let a = 1;") :=
  ⟨C1_amended.1 (str "let a = 1;") (by decide),
   C1_amended.2.1 (str "let a = 1;") (by decide)⟩

/-- The non-idempotence witness input: a template-literal call whose
message, after interpolation stripping, is itself a recognizable call. -/
def cexIdem : List Char := str "console.error(`console.error('a'$\x7bz\x7d, e)`)"

/-- C2 counterexample: applying refactor-logger.py's rewrite twice differs
from applying it once — the first run emits
`log.error(\x7b msg: "console.error('a', e)" \x7d)`, whose message the
second run rewrites again. -/
theorem C2_counterexample :
    RefactorLogger.rewritten (RefactorLogger.rewritten cexIdem) ≠
      RefactorLogger.rewritten cexIdem := by decide

/-- C2 amended: a second run is the identity on every first-run output that
contains no console occurrence (which the counterexample shows is not
always the case); stated for both scripts. -/
theorem C2_amended :
    (∀ t : List Char,
      RefactorLogger.countConsole (RefactorLogger.rewritten t) = 0 →
      RefactorLogger.rewritten (RefactorLogger.rewritten t) =
        RefactorLogger.rewritten t) ∧
    (∀ t : List Char,
      RefactorLogger.countConsole ((RefactorLogs.refactor_file t).2) = 0 →
      (RefactorLogs.refactor_file ((RefactorLogs.refactor_file t).2)).2 =
        (RefactorLogs.refactor_file t).2) := by
  constructor
  · intro t h
    exact RefactorLogger.rewritten_consoleFree h
  · intro t h
    rw [RefactorLogs.logsFile_consoleFree h]

/-- C2 amended witness. -/
theorem C2_amended_witness :
    RefactorLogger.rewritten (RefactorLogger.rewritten (str "console.log('hi')")) =
      RefactorLogger.rewritten (str "console.log('hi')") ∧
    (RefactorLogs.refactor_file ((RefactorLogs.refactor_file (str "let y = 2;")).2)).2 =
      (RefactorLogs.refactor_file (str "let y = 2;")).2 :=
  ⟨C2_amended.1 (str "console.log('hi')") (by decide),
   C2_amended.2 (str "let y = 2;") (by decide)⟩

/-- C4 counterexample: refactor_logs.py rewrites `console.log('a', b);`
(count 1) in a file containing no import statement, and inserts no import
line at all — in particular not at the top of the file. -/
theorem C4_counterexample :
    RefactorLogs.refactor_file (str "console.log('a', b);") =
      (1, str "log.info(\x7b msg: 'a', b \x7d);") ∧
    substrB importLine (RefactorLogs.refactor_file (str "console.log('a', b);")).2 =
      false :=
  ⟨by decide, by decide⟩

/-- C4 amended: refactor-logger.py places the import line immediately after
the last line matching its import-line test, or at the very top when no
line matches; refactor_logs.py instead splices the line right after the end
of the leftmost import-statement match and inserts nothing when the content
has no such match. -/
theorem C4_amended :
    (∀ (t : List Char) (i : Nat), RefactorLogger.has_logger_import t = false →
      RefactorLogger.lastImportIdx (splitLines t) = some i →
      splitLines (RefactorLogger.add_logger_import t) =
        insertAt (i + 1) importLine (splitLines t) ∧
      i < (splitLines t).length ∧
      RefactorLogger.isImportLine ((splitLines t).getD i []) = true ∧
      (∀ j, i < j → j < (splitLines t).length →
        RefactorLogger.isImportLine ((splitLines t).getD j []) = false)) ∧
    (∀ t : List Char, RefactorLogger.has_logger_import t = false →
      RefactorLogger.lastImportIdx (splitLines t) = none →
      RefactorLogger.add_logger_import t = importLine ++ '\n' :: '\n' :: t) ∧
    (∀ (n : Nat) (t : List Char), RefactorLogs.findImportStmt t = none →
      RefactorLogs.import_step n t = t) ∧
    (∀ (n : Nat) (t : List Char) (p L : Nat), n ≠ 0 →
      substrB (str "log, logError") t = false →
      RefactorLogs.findImportStmt t = some (p, L) →
      RefactorLogs.import_step n t =
        t.take (p + L) ++ '\n' :: (importLine ++ t.drop (p + L)) ∧
      RefactorLogs.importStmtLen (t.drop p) = some L ∧
      (∀ r, r < p → RefactorLogs.importStmtLen (t.drop r) = none)) := by
  refine ⟨?_, ?_, ?_, ?_⟩
  · intro t i hh hl
    obtain ⟨h1, h2, h3⟩ := RefactorLogger.lastImportIdx_some hl
    exact ⟨RefactorLogger.add_logger_import_insert hh hl, h1, h2, h3⟩
  · intro t hh hl
    exact RefactorLogger.add_logger_import_top hh hl
  · intro n t h
    exact RefactorLogs.import_step_noStmt h
  · intro n t p L hn hs hf
    obtain ⟨h1, h2⟩ := RefactorLogs.findImportStmt_spec hf
    exact ⟨RefactorLogs.import_step_insert hn hs hf, h1, h2⟩

/-- C4 amended witness. -/
theorem C4_amended_witness :
    splitLines (RefactorLogger.add_logger_import (str "import a;\ncode")) =
      insertAt 1 importLine (splitLines (str "import a;\ncode")) ∧
    RefactorLogger.add_logger_import (str "code") =
      importLine ++ '\n' :: '\n' :: str "code" ∧
    RefactorLogs.import_step 1 (str "code") = str "code" ∧
    RefactorLogs.import_step 1 (str "import a; code") =
      (str "import a; code").take 9 ++ '\n' ::
        (importLine ++ (str "import a; code").drop 9) :=
  ⟨(C4_amended.1 (str "import a;\ncode") 0 (by decide) (by decide)).1,
   C4_amended.2.1 (str "code") (by decide) (by decide),
   C4_amended.2.2.1 1 (str "code") (by decide),
   (C4_amended.2.2.2 1 (str "import a; code") 0 9 (by decide) (by decide)
     (by decide)).1⟩

/-- The marker-retention witness input: a template-literal message with an
interpolation marker, passed together with an error variable. -/
def cexMarker : List Char := str "console.error(`fail $\x7bx\x7d`, err)"

/-- C5 counterexample: the string-plus-error-variable pattern also matches
template-literal arguments; on `console.error(%60fail $\x7bx\x7d%60, err)`
the emitted message keeps the interpolation marker. -/
theorem C5_counterexample :
    RefactorLogger.refactor_file cexMarker =
      (some (importLine ++ '\n' :: '\n' ::
        str "logError(err, \"fail $\x7bx\x7d\", \x7b component: \"refactored\" \x7d)"),
        1) ∧
    substrB interpMark (RefactorLogger.rewritten cexMarker) = true :=
  ⟨by decide, by decide⟩

/-- C5 amended: messages rewritten through the template-literal patterns
have their interpolation markers (and enclosed expressions) stripped and
the result trimmed; messages rewritten through the string-plus-error-value
pattern only lose brackets and surrounding whitespace, so an interpolation
marker they contain is retained in the emitted text. -/
theorem C5_amended :
    (∀ msg : List Char, msg ≠ [] → '`' ∉ msg → substrB interpMark msg = true →
      matchTemplate (str "console.error(") (str "log.error")
        (str "console.error(" ++ '`' :: (msg ++ '`' :: [')'])) =
        some (str "log.error" ++ str "(\x7b msg: \"" ++ pyStrip (stripInterp msg) ++
          str "\" \x7d)", [])) ∧
    (∀ msg v : List Char, msg ≠ [] → (∀ c ∈ msg, isQuote c = false) →
      v ≠ [] → (∀ c ∈ v, isWord c = true) →
      substrB interpMark msg = true → '[' ∉ msg → ']' ∉ msg →
      ∃ rep, matchStrVar (str "console.error(")
          (str "console.error(" ++ '\'' :: (msg ++ '\'' :: ',' :: ' ' :: (v ++ [')']))) =
          some (rep, []) ∧ substrB interpMark rep = true) := by
  constructor
  · intro msg h1 h2 h3
    exact matchTemplate_call _ _ h1 h2 h3
  · intro msg v h1 h2 h3 h4 hi hb1 hb2
    refine ⟨_, matchStrVar_call _ h1 h2 h3 h4, ?_⟩
    have hfe : msg.filter (fun c => !(c = '[' || c = ']')) = msg := by
      rw [List.filter_eq_self]
      intro a ha
      simp only [Bool.not_eq_true', Bool.or_eq_false_iff, decide_eq_false_iff_not]
      exact ⟨fun e => hb1 (e ▸ ha), fun e => hb2 (e ▸ ha)⟩
    rw [hfe]
    have hmark : interpMark <:+: pyStrip msg :=
      substr_pyStrip (by decide) (by decide) (substrB_iff.mp hi)
    rw [substrB_iff]
    have hin : pyStrip msg <:+:
        str "logError(" ++ v ++ str ", \"" ++ pyStrip msg ++
          str "\", \x7b component: \"refactored\" \x7d)" :=
      ⟨str "logError(" ++ v ++ str ", \"",
       str "\", \x7b component: \"refactored\" \x7d)", by simp⟩
    exact hmark.trans hin

/-- C5 amended witness. -/
theorem C5_amended_witness :
    matchTemplate (str "console.error(") (str "log.error")
      (str "console.error(" ++ '`' :: (str "a $\x7bb\x7d" ++ '`' :: [')'])) =
      some (str "log.error" ++ str "(\x7b msg: \"" ++
        pyStrip (stripInterp (str "a $\x7bb\x7d")) ++ str "\" \x7d)", []) ∧
    ∃ rep, matchStrVar (str "console.error(")
        (str "console.error(" ++ '\'' ::
          (str "a $\x7bb\x7d" ++ '\'' :: ',' :: ' ' :: (str "e" ++ [')']))) =
        some (rep, []) ∧ substrB interpMark rep = true :=
  ⟨C5_amended.1 (str "a $\x7bb\x7d") (by decide) (by decide) (by decide),
   C5_amended.2 (str "a $\x7bb\x7d") (str "e") (by decide) (by decide) (by decide)
     (by decide) (by decide) (by decide) (by decide)⟩

/-- C9 counterexample: no rewrite pattern matches `console.log(x);` (every
pass is the identity on it, with or without the inserted import), yet
refactor-logger.py overwrites the file: the output gains the import line
while the reported count is 0. -/
theorem C9_counterexample :
    RefactorLogger.passes (str "console.log(x);") = str "console.log(x);" ∧
    RefactorLogger.passes (RefactorLogger.add_logger_import (str "console.log(x);")) =
      RefactorLogger.add_logger_import (str "console.log(x);") ∧
    RefactorLogger.refactor_file (str "console.log(x);") =
      (some (importLine ++ '\n' :: '\n' :: str "console.log(x);"), 0) :=
  ⟨by decide, by decide, by decide⟩

/-- C9 amended: refactor-logger.py writes only when the transformed content
(including the import insertion) differs from the original; a file with no
console occurrence is never written by either script; but a file containing
a console occurrence can be overwritten by the import insertion alone, even
when no rewrite pattern matched. -/
theorem C9_amended :
    (∀ (t c : List Char) (n : Int),
      RefactorLogger.refactor_file t = (some c, n) → c ≠ t) ∧
    (∀ t : List Char, RefactorLogger.countConsole t = 0 →
      (RefactorLogger.refactor_file t).1 = none ∧
      (RefactorLogs.refactor_file t).2 = t) ∧
    (∀ (fs : List (String × List Char)) (p : String) (rest : List String)
        (t : List Char),
      RefactorLogger.fsRead fs p = some t → (RefactorLogs.refactor_file t).1 = 0 →
      RefactorLogs.main (p :: rest) fs = (0, fs)) := by
  refine ⟨?_, ?_, ?_⟩
  · intro t c n h
    by_cases hcb : RefactorLogger.countConsole t = 0
    · rw [RefactorLogger.refactor_file_consoleFree hcb] at h
      exact absurd h (by simp)
    · simp only [RefactorLogger.refactor_file] at h
      rw [if_neg hcb] at h
      by_cases hc : RefactorLogger.passes (RefactorLogger.add_logger_import t) = t
      · rw [if_pos hc] at h
        exact absurd h (by simp)
      · rw [if_neg hc] at h
        have hcc : RefactorLogger.passes (RefactorLogger.add_logger_import t) = c := by
          have := congrArg Prod.fst h
          simpa using this
        rw [← hcc]
        exact hc
  · intro t h
    exact ⟨by rw [RefactorLogger.refactor_file_consoleFree h],
      by rw [RefactorLogs.logsFile_consoleFree h]⟩
  · intro fs p rest t hr h0
    simp only [RefactorLogs.main, hr]
    rw [if_pos h0]

/-- C9 amended witness. -/
theorem C9_amended_witness :
    (importLine ++ '\n' :: '\n' :: str "log.info(\x7b msg: \"a\" \x7d)") ≠
      str "console.log('a')" ∧
    (RefactorLogger.refactor_file (str "plain")).1 = none ∧
    RefactorLogs.main ["a.ts"] [("a.ts", str "plain")] = (0, [("a.ts", str "plain")]) :=
  ⟨C9_amended.1 (str "console.log('a')") _ 1 (by decide),
   (C9_amended.2.1 (str "plain") (by decide)).1,
   C9_amended.2.2 [("a.ts", str "plain")] "a.ts" [] (str "plain") (by decide)
     (by decide)⟩
